import Mathlib

/-!
Verification of the gossipsub core of rust-libp2p (protocols/gossipsub).
The Rust sources embedded here are mesh.rs, errors.rs and message.rs.
Strings are modelled as lists of Unicode code points (`List Nat`), byte
buffers as lists of naturals below 256, and the HashMap backing the mesh
as an association list looked up and erased at the first matching key.
-/

/-- Opaque identifier of a topic, convertible to a canonical string
(modelled as the list of its code points). -/
structure TopicHash where
  str : List Nat
deriving DecidableEq, Repr

def TopicHash.into_string (t : TopicHash) : List Nat := t.str

/-- Number of leading occurrences of `x` at the head of a list. -/
def countLeading (x : Nat) : List Nat → Nat
  | [] => 0
  | b :: bs => if b = x then countLeading x bs + 1 else 0

/-- Big-endian value of a byte string, as the bs58 crate reads its input. -/
def natFromBytes (bs : List Nat) : Nat := bs.foldl (fun a b => a * 256 + b) 0

/-- Least-significant-first base-`base` digits of `n`, with explicit fuel so
that the definition is structural and computes inside the kernel. With
`fuel` at least `n` the fuel never runs out. -/
def digitsCore (base : Nat) : Nat → Nat → List Nat
  | _, 0 => []
  | 0, _ + 1 => []
  | fuel + 1, n + 1 => (n + 1) % base :: digitsCore base fuel ((n + 1) / base)

/-- Least-significant-first base-`base` digits of `n`. -/
def digitsRev (base n : Nat) : List Nat := digitsCore base n n

/-- Value of a least-significant-first digit list. -/
def fromRev (base : Nat) (ds : List Nat) : Nat :=
  ds.foldr (fun d a => a * base + d) 0

/-- The 58 code points of the bs58 alphabet
123456789ABCDEFGHJKLMNPQRSTUVWXYZabcdefghijkmnopqrstuvwxyz. -/
def alphabet58 : List Nat :=
  [49, 50, 51, 52, 53, 54, 55, 56, 57,
   65, 66, 67, 68, 69, 70, 71, 72, 74, 75, 76, 77, 78, 80, 81, 82, 83,
   84, 85, 86, 87, 88, 89, 90,
   97, 98, 99, 100, 101, 102, 103, 104, 105, 106, 107, 109, 110, 111,
   112, 113, 114, 115, 116, 117, 118, 119, 120, 121, 122]

/-- Index of the first occurrence of `c` (58 when absent). -/
def indexInAlphabet (c : Nat) : List Nat → Nat
  | [] => 0
  | a :: as => if a = c then 0 else indexInAlphabet c as + 1

/-- Base-58 encoding as the bs58 crate computes it: one `1` (code point 49)
per leading zero byte, then the big-endian base-58 digits of the value of
the input, rendered through the alphabet. -/
def base58encode (bs : List Nat) : List Nat :=
  List.replicate (countLeading 0 bs) 49 ++
    ((digitsRev 58 (natFromBytes bs)).reverse.map (fun d => alphabet58.getD d 0))

/-- Base-58 decoding: leading `1` characters become zero bytes, the rest is
read as base-58 digits and written back as big-endian base-256 bytes. -/
def base58decode (cs : List Nat) : List Nat :=
  let k := countLeading 49 cs
  let n := ((cs.drop k).map (fun c => indexInAlphabet c alphabet58)).foldl
    (fun a d => a * 58 + d) 0
  List.replicate k 0 ++ (digitsRev 256 n).reverse

/-- Opaque peer identity (libp2p_core::PeerId), held as its bytes. -/
structure PeerId where
  bytes : List Nat
deriving DecidableEq, Repr

/-- Canonical base-58 rendering of a peer id.
Modelled from the spec: PeerId lives in libp2p_core outside src; the spec
says it is renderable to a canonical base-58 string. -/
def PeerId.to_base58 (p : PeerId) : List Nat := base58encode p.bytes

/-- Code points of an ASCII string literal, for the err fields the source
fills with formatted prose (the prose is inessential to every claim). -/
def strCodes (s : String) : List Nat := s.toList.map Char.toNat

/-- The error enumeration of errors.rs (custom_error GError). The Io
variant wraps an io::Error source, which carries no structure used here. -/
inductive GError where
  | Io : GError
  | NotSubscribedToTopic (t_hash : List Nat) (peer_id : List Nat) (err : List Nat) : GError
  | NotGraftedToTopic (t_hash : List Nat) (peer_id : List Nat) (err : List Nat) : GError
  | TopicNotInMesh (t_hash : List Nat) (err : List Nat) : GError
  | AlreadyGrafted (t_hash : List Nat) (peer_id : List Nat) (err : List Nat) : GError
  | InvalidPeerId (from_data : List Nat) : GError
deriving DecidableEq, Repr

/-- pub type Result of T in errors.rs. -/
abbrev GResult (α : Type) := Except GError α

/-- The constructor of an error, without its formatted fields. -/
inductive ErrKind where
  | io | notSubscribedToTopic | notGraftedToTopic | topicNotInMesh
  | alreadyGrafted | invalidPeerId
deriving DecidableEq, Repr

def GError.kind : GError → ErrKind
  | .Io => .io
  | .NotSubscribedToTopic _ _ _ => .notSubscribedToTopic
  | .NotGraftedToTopic _ _ _ => .notGraftedToTopic
  | .TopicNotInMesh _ _ => .topicNotInMesh
  | .AlreadyGrafted _ _ _ => .alreadyGrafted
  | .InvalidPeerId _ => .invalidPeerId

/-- The error constructor a result carries, if any. -/
def errKind {α : Type} : GResult α → Option ErrKind
  | .ok _ => none
  | .error e => some e.kind

/-- First-match lookup in the association list backing the mesh map. -/
def meshLookup : List (TopicHash × List PeerId) → TopicHash → Option (List PeerId)
  | [], _ => none
  | e :: es, th => if e.1 = th then some e.2 else meshLookup es th

/-- Removal of the first entry with the given key. -/
def meshErase : List (TopicHash × List PeerId) → TopicHash → List (TopicHash × List PeerId)
  | [], _ => []
  | e :: es, th => if e.1 = th then es else e :: meshErase es th

/-- struct Mesh of mesh.rs: a map of topics to the peers grafted to them. -/
structure Mesh where
  m : List (TopicHash × List PeerId)
deriving DecidableEq, Repr

/-- Mesh::new. -/
def Mesh.new : Mesh := ⟨[]⟩

/-- Mesh::insert: HashMap::insert, replacing the set for the topic and
returning the previous set when there was one. -/
def Mesh.insert (mesh : Mesh) (k : TopicHash) (v : List PeerId) :
    Option (List PeerId) × Mesh :=
  match meshLookup mesh.m k with
  | some old => (some old, ⟨mesh.m.map (fun e => if e.1 = k then (k, v) else e)⟩)
  | none => (none, ⟨mesh.m ++ [(k, v)]⟩)

/-- Mesh::get_peers_from_topic. -/
def Mesh.get_peers_from_topic (mesh : Mesh) (th : TopicHash) :
    GResult (List PeerId) :=
  match meshLookup mesh.m th with
  | some peers => .ok peers
  | none => .error (.TopicNotInMesh th.into_string
      (strCodes "Tried to get peers from the topic with topic hash but this topic is not found in the mesh."))

/-- Mesh::get_peer_from_topic. -/
def Mesh.get_peer_from_topic (mesh : Mesh) (th : TopicHash) (p : PeerId) :
    GResult PeerId :=
  match Mesh.get_peers_from_topic mesh th with
  | .ok peers =>
      if p ∈ peers then .ok p
      else .error (.NotGraftedToTopic th.into_string p.to_base58
        (strCodes "Tried to get peer but it was not found in the peers that are grafted to the topic with topic hash."))
  | .error err => .error err

/-- Mesh::add_peer (the Graft path): entry(th).and_modify pushes the peer
onto the existing vector; an absent topic is left untouched. Nothing checks
whether the peer is already grafted and nothing is returned. -/
def Mesh.add_peer (mesh : Mesh) (th : TopicHash) (p : PeerId) : Mesh :=
  ⟨mesh.m.map (fun e => if e.1 = th then (e.1, e.2 ++ [p]) else e)⟩

/-- Mesh::remove: HashMap::remove of the whole topic entry. -/
def Mesh.remove (mesh : Mesh) (th : TopicHash) :
    GResult (List PeerId) × Mesh :=
  match meshLookup mesh.m th with
  | some peers => (.ok peers, ⟨meshErase mesh.m th⟩)
  | none => (.error (.TopicNotInMesh th.into_string
      (strCodes "Tried to remove the topic with topic hash from the mesh.")), mesh)

/-- Mesh::remove_peer_from_topic (the Prune path): it first calls
self.remove, which takes the whole topic entry out of the map, then prunes
the peer from the local vector it got back. That local vector is dropped
and never re-inserted, so on both the ok and the NotGraftedToTopic paths
the topic stays removed from the map. -/
def Mesh.remove_peer_from_topic (mesh : Mesh) (th : TopicHash) (p : PeerId) :
    GResult Unit × Mesh :=
  match Mesh.remove mesh th with
  | (.ok peers, mesh1) =>
      if p ∈ peers then (.ok (), mesh1)
      else (.error (.NotGraftedToTopic th.into_string p.to_base58
        (strCodes "Tried to remove the peer from the topic with topic hash.")), mesh1)
  | (.error _, _) =>
      (.error (.TopicNotInMesh th.into_string
        (strCodes "Tried to remove the peer from the topic with topic hash from the mesh, but the topic was not found.")), mesh)

/-- Contains a message ID as a string (message.rs MsgId). -/
structure MsgId where
  id : List Nat
deriving DecidableEq, Repr

/-- MsgId::into_string. -/
def MsgId.into_string (m : MsgId) : List Nat := m.id

/-- Represents the hash of a message (message.rs MsgHash). -/
structure MsgHash where
  hash : List Nat
deriving DecidableEq, Repr

/-- MsgHash::from_raw. -/
def MsgHash.from_raw (h : List Nat) : MsgHash := ⟨h⟩

/-- MsgHash::into_string. -/
def MsgHash.into_string (h : MsgHash) : List Nat := h.hash

/-- Contains either a MsgHash or a MsgId to represent a message. -/
inductive MsgRep where
  | hash (h : MsgHash)
  | id (i : MsgId)
deriving DecidableEq, Repr

/-- A message received by the Gossipsub system (message.rs GMessage).
The topics field has type TopicMap in the source, defined outside src;
the spec says it is a non-empty set of TopicHash, modelled as the list of
the hashes its iterator yields. time_sent is an opaque timestamp. -/
structure GMessage where
  source : PeerId
  data : List Nat
  seq_no : List Nat
  topics : List TopicHash
  time_sent : Nat
  hash : MsgHash
  id : Option MsgId
deriving DecidableEq, Repr

/-- GMessage::get_hash. -/
def GMessage.get_hash (m : GMessage) : MsgHash := m.hash

/-- GMessage::get_id. -/
def GMessage.get_id (m : GMessage) : Option MsgId := m.id

/-- The rpc_proto Message record with the fields the conversion From
GMessage sets: from, data, seqno and topicIDs. The field named from in
the protobuf is called from_id here because from is a Lean keyword. -/
structure RpcMessage where
  from_id : List Nat
  data : List Nat
  seqno : List Nat
  topicIDs : List (List Nat)
deriving DecidableEq, Repr

/-- From GMessage for rpc_proto::Message: sets from to the peer id bytes,
data, seqno and the topic strings. -/
def rpc_Message_from (message : GMessage) : RpcMessage :=
  { from_id := message.source.bytes
    data := message.data
    seqno := message.seq_no
    topicIDs := message.topics.map TopicHash.into_string }

/-- Little-endian base-128 varint of a natural, fuelled so that the
definition is structural; with fuel at least n the fuel never runs out. -/
def varintCore : Nat → Nat → List Nat
  | 0, n => [n % 128]
  | fuel + 1, n => if n < 128 then [n] else (n % 128 + 128) :: varintCore fuel (n / 128)

/-- Protobuf varint encoding of a natural number. -/
def varint (n : Nat) : List Nat := varintCore n n

/-- One length-delimited protobuf field: its tag byte, the varint of the
payload length, then the payload. -/
def lenDelim (tag : Nat) (payload : List Nat) : List Nat :=
  tag :: (varint payload.length ++ payload)

/-- UTF-8 encoding of a list of code points (code points of 17 planes). -/
def utf8Encode : List Nat → List Nat
  | [] => []
  | c :: cs =>
    (if c < 128 then [c]
     else if c < 2048 then [192 + c / 64, 128 + c % 64]
     else if c < 65536 then [224 + c / 4096, 128 + c / 64 % 64, 128 + c % 64]
     else [240 + c / 262144, 128 + c / 4096 % 64, 128 + c / 64 % 64, 128 + c % 64])
    ++ utf8Encode cs

/-- Serialized bytes of an rpc_proto Message.
Modelled from the spec: rpc_proto and the protobuf codec live outside src;
the spec fixes the wire record as from bytes, data bytes, seqno bytes and
topic_ids strings, serialized as length-delimited protobuf fields 1 to 4
(tag bytes 10, 18, 26 and 34). -/
def writeToBytes (msg : RpcMessage) : List Nat :=
  lenDelim 10 msg.from_id ++ lenDelim 18 msg.data ++ lenDelim 26 msg.seqno ++
    (msg.topicIDs.map (fun t => lenDelim 34 (utf8Encode t))).flatten

/-- Builder for a MsgHash (message.rs MsgHashBuilder). -/
structure MsgHashBuilder where
  builder : RpcMessage
deriving DecidableEq, Repr

/-- MsgHashBuilder::new wraps the rpc_proto Message of the message. -/
def MsgHashBuilder.new (msg : GMessage) : MsgHashBuilder :=
  ⟨rpc_Message_from msg⟩

/-- MsgHashBuilder::build: the base-58 rendering of write_to_bytes of the
held builder. -/
def MsgHashBuilder.build (b : MsgHashBuilder) : MsgHash :=
  ⟨base58encode (writeToBytes b.builder)⟩

/-- MsgHash::new. -/
def MsgHash.new (msg : GMessage) : MsgHash := (MsgHashBuilder.new msg).build

/-- Decoding of UTF-8 bytes to code points as Rust String::from_utf8
validates them: continuation bytes in 128..191, no overlong forms, no
surrogates, nothing above 1114111. none models the Err case. -/
def utf8Decode : List Nat → Option (List Nat)
  | [] => some []
  | b :: bs =>
    if b < 128 then (utf8Decode bs).map (b :: ·)
    else if 194 ≤ b ∧ b ≤ 223 then
      match bs with
      | b2 :: bs2 =>
        if 128 ≤ b2 ∧ b2 ≤ 191 then
          (utf8Decode bs2).map (((b - 192) * 64 + (b2 - 128)) :: ·)
        else none
      | [] => none
    else if 224 ≤ b ∧ b ≤ 239 then
      match bs with
      | b2 :: b3 :: bs3 =>
        if (if b = 224 then 160 ≤ b2 ∧ b2 ≤ 191
            else if b = 237 then 128 ≤ b2 ∧ b2 ≤ 159
            else 128 ≤ b2 ∧ b2 ≤ 191) ∧ 128 ≤ b3 ∧ b3 ≤ 191 then
          (utf8Decode bs3).map
            (((b - 224) * 4096 + (b2 - 128) * 64 + (b3 - 128)) :: ·)
        else none
      | _ => none
    else if 240 ≤ b ∧ b ≤ 244 then
      match bs with
      | b2 :: b3 :: b4 :: bs4 =>
        if (if b = 240 then 144 ≤ b2 ∧ b2 ≤ 191
            else if b = 244 then 128 ≤ b2 ∧ b2 ≤ 143
            else 128 ≤ b2 ∧ b2 ≤ 191) ∧ 128 ≤ b3 ∧ b3 ≤ 191 ∧ 128 ≤ b4 ∧ b4 ≤ 191 then
          (utf8Decode bs4).map
            (((b - 240) * 262144 + (b2 - 128) * 4096 + (b3 - 128) * 64 + (b4 - 128)) :: ·)
        else none
      | _ => none
    else none

/-- MsgId::new: the concatenation of seq_no decoded as UTF-8 (the expect
call panics on invalid UTF-8, modelled as none) and the base-58 rendering
of the source peer id. -/
def MsgId.new (msg : GMessage) : Option MsgId :=
  match utf8Decode msg.seq_no with
  | some s => some ⟨s ++ msg.source.to_base58⟩
  | none => none

/-- The message cache a ControlIHave carries.
Modelled from the spec: mcache.rs is not under src; the spec says the
cache yields the ids of recently seen messages for IHAVE. -/
structure MCache where
  ids : List MsgId
deriving DecidableEq, Repr

/-- Gossip control message (message.rs ControlIHave). -/
structure ControlIHave where
  topic : TopicHash
  recent_mcache : MCache
deriving DecidableEq, Repr

/-- Control message requesting messages (message.rs ControlIWant). -/
structure ControlIWant where
  messages : List MsgRep
deriving DecidableEq, Repr

/-- Control message grafting a mesh link (message.rs ControlGraft). -/
structure ControlGraft where
  topic : TopicHash
deriving DecidableEq, Repr

/-- Control message pruning a mesh link (message.rs ControlPrune). -/
structure ControlPrune where
  topic : TopicHash
deriving DecidableEq, Repr

/-- The control message for Gossipsub (message.rs ControlMessage). -/
structure ControlMessage where
  ihave : List ControlIHave
  iwant : List ControlIWant
  graft : List ControlGraft
  prune : List ControlPrune
deriving DecidableEq, Repr

/-- rpc_proto ControlIHave record. -/
structure RpcControlIHave where
  topicID : List Nat
  messageIDs : List (List Nat)
deriving DecidableEq, Repr

/-- rpc_proto ControlIWant record. -/
structure RpcControlIWant where
  messageIDs : List (List Nat)
deriving DecidableEq, Repr

/-- rpc_proto ControlGraft record (canonical wire form: topic_id only). -/
structure RpcControlGraft where
  topicID : List Nat
deriving DecidableEq, Repr

/-- rpc_proto ControlPrune record (canonical wire form: topic_id only). -/
structure RpcControlPrune where
  topicID : List Nat
deriving DecidableEq, Repr

/-- rpc_proto ControlMessage record with its four parallel arrays. -/
structure RpcControlMessage where
  ihave : List RpcControlIHave
  iwant : List RpcControlIWant
  graft : List RpcControlGraft
  prune : List RpcControlPrune
deriving DecidableEq, Repr

/-- rpc_proto::ControlMessage::new: all four arrays empty. -/
def RpcControlMessage.new : RpcControlMessage := ⟨[], [], [], []⟩

/-- Rendering of a compact message reference as an id string.
Modelled from the spec: the source maps each element through a field
access id that does not type-check on the MsgRep enum; the spec says
control frames carry the reference uniformly as a message id string. -/
def msgRepString : MsgRep → List Nat
  | .hash h => h.hash
  | .id i => i.id

/-- From ControlIHave for rpc_proto::ControlIHave: the topic string plus
the id strings of the carried cache entries. -/
def rpc_ControlIHave_from (c : ControlIHave) : RpcControlIHave :=
  ⟨c.topic.into_string, c.recent_mcache.ids.map MsgId.into_string⟩

/-- From ControlIWant for rpc_proto::ControlIWant. -/
def rpc_ControlIWant_from (c : ControlIWant) : RpcControlIWant :=
  ⟨c.messages.map msgRepString⟩

/-- Conversion of a ControlGraft to its wire record.
Modelled from the spec: the source reads a non-existent messages field of
ControlGraft and does not compile; the canonical encoding carries only
topic_id. -/
def rpc_ControlGraft_from (c : ControlGraft) : RpcControlGraft :=
  ⟨c.topic.into_string⟩

/-- Conversion of a ControlPrune to its wire record.
Modelled from the spec: the source reads a non-existent messages field of
ControlPrune and does not compile; the canonical encoding carries only
topic_id. -/
def rpc_ControlPrune_from (c : ControlPrune) : RpcControlPrune :=
  ⟨c.topic.into_string⟩

/-- Vec::to_vec followed by push, as the conversion loops call it: the
push lands on a fresh copy of the array, which the caller drops. -/
def toVecPush {α : Type} (v : List α) (x : α) : List α := v ++ [x]

/-- From ControlMessage for rpc_proto::ControlMessage: each loop converts
an element and pushes it into get_X().to_vec(), a copy of the field that
is immediately discarded, so ctrl itself is returned as built by new. -/
def rpc_ControlMessage_from (control : ControlMessage) : RpcControlMessage :=
  let ctrl := RpcControlMessage.new
  let ctrl := control.ihave.foldl
    (fun ctrl x => let _pushed := toVecPush ctrl.ihave (rpc_ControlIHave_from x); ctrl) ctrl
  let ctrl := control.iwant.foldl
    (fun ctrl x => let _pushed := toVecPush ctrl.iwant (rpc_ControlIWant_from x); ctrl) ctrl
  let ctrl := control.graft.foldl
    (fun ctrl x => let _pushed := toVecPush ctrl.graft (rpc_ControlGraft_from x); ctrl) ctrl
  let ctrl := control.prune.foldl
    (fun ctrl x => let _pushed := toVecPush ctrl.prune (rpc_ControlPrune_from x); ctrl) ctrl
  ctrl

/-- A sample topic. -/
def topicA : TopicHash := ⟨[116, 65]⟩

/-- A second sample topic. -/
def topicB : TopicHash := ⟨[116, 66]⟩

/-- A sample peer. -/
def peerOne : PeerId := ⟨[0, 1]⟩

/-- A second sample peer. -/
def peerTwo : PeerId := ⟨[0, 2]⟩

/-- Mesh holding topicA with peers one and two, and topicB with peer two. -/
def meshTwoPeers : Mesh := ⟨[(topicA, [peerOne, peerTwo]), (topicB, [peerTwo])]⟩

/-- Mesh holding topicA with peer one only. -/
def meshOnePeer : Mesh := ⟨[(topicA, [peerOne])]⟩

/-- A control message with one entry in each of the four arrays. -/
def controlOneEach : ControlMessage :=
  ⟨[⟨topicA, ⟨[⟨[105]⟩]⟩⟩], [⟨[MsgRep.id ⟨[106]⟩]⟩], [⟨topicA⟩], [⟨topicB⟩]⟩

/-- A small valid message used as a concrete witness input. -/
def msgSmall : GMessage :=
  { source := peerOne
    data := [7, 8]
    seq_no := [104, 105]
    topics := [topicA]
    time_sent := 0
    hash := ⟨[]⟩
    id := none }

/-- A message whose seq_no is not valid UTF-8 (a lone continuation byte). -/
def msgBadSeq : GMessage :=
  { source := peerOne
    data := []
    seq_no := [255]
    topics := [topicA]
    time_sent := 0
    hash := ⟨[]⟩
    id := none }

/-- Well-formedness of a message as Rust values: the peer id, data and
seq_no buffers hold bytes, and topic strings hold Unicode code points. -/
def GMessageValid (m : GMessage) : Prop :=
  (∀ b ∈ m.source.bytes, b < 256) ∧ (∀ b ∈ m.data, b < 256) ∧
    (∀ b ∈ m.seq_no, b < 256) ∧ ∀ t ∈ m.topics, ∀ c ∈ t.str, c < 1114112

instance (m : GMessage) : Decidable (GMessageValid m) := by
  unfold GMessageValid; infer_instance

/-- Claim C1: the source intends remove_peer to remove only the given peer,
but the successful call deletes the whole topic: afterwards the other peer
is gone and get_peers_from_topic fails with TopicNotInMesh, while the claim
says it succeeds with the remaining peers. -/
theorem remove_peer_from_topic_drops_whole_topic :
    (Mesh.remove_peer_from_topic meshTwoPeers topicA peerOne).1 = .ok ()
    ∧ meshLookup (Mesh.remove_peer_from_topic meshTwoPeers topicA peerOne).2.m topicA = none
    ∧ errKind (Mesh.get_peers_from_topic
        (Mesh.remove_peer_from_topic meshTwoPeers topicA peerOne).2 topicA)
      = some ErrKind.topicNotInMesh
    ∧ meshLookup (Mesh.remove_peer_from_topic meshTwoPeers topicA peerOne).2.m topicB
      = some [peerTwo] := by
  constructor
  · rfl
  · exact ⟨rfl, rfl, rfl⟩

/-- Claim C2: add_peer on a peer that is already grafted pushes it again,
so the looked-up peer list of the topic holds the peer twice and the
no-duplicate invariant the source comments assert is broken. -/
theorem add_peer_inserts_duplicate :
    meshLookup (Mesh.add_peer meshOnePeer topicA peerOne).m topicA
      = some [peerOne, peerOne]
    ∧ ¬ ((meshLookup (Mesh.add_peer meshOnePeer topicA peerOne).m topicA).getD []).Nodup := by
  refine ⟨rfl, ?_⟩
  decide

/-- Claim C3: add_peer of an already grafted peer neither fails nor leaves
the mesh unchanged: its return type carries no error at all and the mesh
gains a duplicate entry. -/
theorem add_peer_already_grafted_changes_mesh :
    Mesh.add_peer meshOnePeer topicA peerOne ≠ meshOnePeer
    ∧ meshLookup (Mesh.add_peer meshOnePeer topicA peerOne).m topicA
      = some [peerOne, peerOne] := by
  refine ⟨?_, rfl⟩
  decide

/-- Claim C4: remove_peer_from_topic returns ok exactly when the topic is
present and the peer is in its set, NotGraftedToTopic exactly when the
topic is present without the peer, and TopicNotInMesh exactly when the
topic is absent. -/
theorem remove_peer_from_topic_error_classification
    (mesh : Mesh) (th : TopicHash) (p : PeerId) :
    ((Mesh.remove_peer_from_topic mesh th p).1 = .ok ()
      ↔ ∃ ps, meshLookup mesh.m th = some ps ∧ p ∈ ps)
    ∧ (errKind (Mesh.remove_peer_from_topic mesh th p).1 = some ErrKind.notGraftedToTopic
      ↔ ∃ ps, meshLookup mesh.m th = some ps ∧ p ∉ ps)
    ∧ (errKind (Mesh.remove_peer_from_topic mesh th p).1 = some ErrKind.topicNotInMesh
      ↔ meshLookup mesh.m th = none) := by
  rcases h : meshLookup mesh.m th with _ | ps
  · simp [Mesh.remove_peer_from_topic, Mesh.remove, h, errKind, GError.kind]
  · by_cases hp : p ∈ ps <;>
      simp [Mesh.remove_peer_from_topic, Mesh.remove, h, hp, errKind, GError.kind]

/-- Claim C5: converting a control message with one IHAVE, one IWANT, one
GRAFT and one PRUNE entry yields a wire record whose four arrays are all
empty: every loop pushes into get_X().to_vec(), a discarded copy. -/
theorem control_message_conversion_drops_all_entries :
    rpc_ControlMessage_from controlOneEach = RpcControlMessage.new
    ∧ controlOneEach.ihave.length = 1 ∧ controlOneEach.iwant.length = 1
    ∧ controlOneEach.graft.length = 1 ∧ controlOneEach.prune.length = 1 :=
  ⟨rfl, rfl, rfl, rfl, rfl⟩

theorem digitsCore_irrel (base : Nat) (hb : 2 ≤ base) :
    ∀ f1 f2 n, n ≤ f1 → n ≤ f2 → digitsCore base f1 n = digitsCore base f2 n := by
  intro f1
  induction f1 with
  | zero =>
    intro f2 n h1 _
    obtain rfl : n = 0 := Nat.le_zero.mp h1
    cases f2 <;> rfl
  | succ f1 ih =>
    intro f2 n h1 h2
    cases n with
    | zero => cases f2 <;> rfl
    | succ m =>
      cases f2 with
      | zero => omega
      | succ g =>
        show (m + 1) % base :: digitsCore base f1 ((m + 1) / base)
            = (m + 1) % base :: digitsCore base g ((m + 1) / base)
        have hd : (m + 1) / base < m + 1 :=
          Nat.div_lt_self (Nat.succ_pos m) (by omega)
        rw [ih g ((m + 1) / base) (by omega) (by omega)]

theorem digitsRev_pos (base : Nat) (hb : 2 ≤ base) (n : Nat) (hn : n ≠ 0) :
    digitsRev base n = n % base :: digitsRev base (n / base) := by
  obtain ⟨m, rfl⟩ : ∃ m, n = m + 1 := ⟨n - 1, by omega⟩
  show digitsCore base (m + 1) (m + 1) = _
  rw [show digitsCore base (m + 1) (m + 1)
      = (m + 1) % base :: digitsCore base m ((m + 1) / base) from rfl]
  have hd : (m + 1) / base < m + 1 := Nat.div_lt_self (Nat.succ_pos m) (by omega)
  rw [digitsRev, digitsCore_irrel base hb m ((m + 1) / base) ((m + 1) / base)
    (by omega) (by omega)]

theorem fromRev_cons (base d : Nat) (ds : List Nat) :
    fromRev base (d :: ds) = fromRev base ds * base + d := rfl

theorem fromRev_digitsRev (base : Nat) (hb : 2 ≤ base) :
    ∀ n, fromRev base (digitsRev base n) = n := by
  intro n
  induction n using Nat.strong_induction_on with
  | _ n ih =>
    rcases eq_or_ne n 0 with rfl | hn
    · rfl
    · rw [digitsRev_pos base hb n hn, fromRev_cons,
        ih (n / base) (Nat.div_lt_self (Nat.pos_of_ne_zero hn) (by omega)),
        Nat.mul_comm]
      exact Nat.div_add_mod n base

theorem digitsRev_lt (base : Nat) (hb : 2 ≤ base) :
    ∀ n, ∀ d ∈ digitsRev base n, d < base := by
  intro n
  induction n using Nat.strong_induction_on with
  | _ n ih =>
    intro d hd
    rcases eq_or_ne n 0 with rfl | hn
    · simp [digitsRev, digitsCore] at hd
    · rw [digitsRev_pos base hb n hn] at hd
      rcases List.mem_cons.mp hd with rfl | hd
      · exact Nat.mod_lt n (by omega)
      · exact ih (n / base) (Nat.div_lt_self (Nat.pos_of_ne_zero hn) (by omega)) d hd

theorem digitsRev_getLast_ne_zero (base : Nat) (hb : 2 ≤ base) :
    ∀ n, n ≠ 0 → (digitsRev base n).getLast? ≠ some 0 := by
  intro n
  induction n using Nat.strong_induction_on with
  | _ n ih =>
    intro hn
    rw [digitsRev_pos base hb n hn]
    rcases eq_or_ne (n / base) 0 with hq | hq
    · rw [hq]
      have hlt : n < base := by
        rcases Nat.lt_or_ge n base with h | h
        · exact h
        · exact absurd hq (by
            have := Nat.div_le_div_right (c := base) h
            rw [Nat.div_self (by omega)] at this
            omega)
      rw [show digitsRev base 0 = [] from rfl]
      simp [Nat.mod_eq_of_lt hlt, hn]
    · have htail := digitsRev_pos base hb (n / base) hq
      rw [htail, List.getLast?_cons_cons, ← htail]
      exact ih (n / base) (Nat.div_lt_self (Nat.pos_of_ne_zero hn) (by omega)) hq

theorem fromRev_pos (base : Nat) (hb : 2 ≤ base) :
    ∀ ds : List Nat, ds.getLast? ≠ some 0 → ds ≠ [] → 0 < fromRev base ds := by
  intro ds
  induction ds with
  | nil => intro _ h; exact absurd rfl h
  | cons d ds ih =>
    intro hlast _
    cases ds with
    | nil =>
      have : d ≠ 0 := by simpa using hlast
      simpa [fromRev_cons, fromRev] using Nat.pos_of_ne_zero this
    | cons e es =>
      rw [List.getLast?_cons_cons] at hlast
      have h1 : 0 < fromRev base (e :: es) := ih hlast (by simp)
      rw [fromRev_cons]
      exact Nat.lt_of_lt_of_le (Nat.mul_pos h1 (by omega)) (Nat.le_add_right _ _)

theorem digitsRev_fromRev (base : Nat) (hb : 2 ≤ base) :
    ∀ ds : List Nat, (∀ d ∈ ds, d < base) → ds.getLast? ≠ some 0 →
      digitsRev base (fromRev base ds) = ds := by
  intro ds
  induction ds with
  | nil => intro _ _; rfl
  | cons d ds ih =>
    intro hlt hlast
    cases ds with
    | nil =>
      have hd0 : d ≠ 0 := by simpa using hlast
      have hdb : d < base := hlt d (by simp)
      have hv : fromRev base [d] = d := by simp [fromRev]
      rw [hv, digitsRev_pos base hb d hd0, Nat.mod_eq_of_lt hdb,
        Nat.div_eq_of_lt hdb]
      rfl
    | cons e es =>
      have hlast' : (e :: es).getLast? ≠ some 0 := by
        rwa [List.getLast?_cons_cons] at hlast
      have hq := ih (fun x hx => hlt x (List.mem_cons_of_mem _ hx)) hlast'
      have hqpos : 0 < fromRev base (e :: es) := fromRev_pos base hb _ hlast' (by simp)
      have hdb : d < base := hlt d (by simp)
      rw [fromRev_cons]
      have hvne : fromRev base (e :: es) * base + d ≠ 0 := by
        have := Nat.mul_pos hqpos (show 0 < base by omega)
        omega
      rw [digitsRev_pos base hb _ hvne, Nat.mul_comm, Nat.mul_add_mod,
        Nat.mul_add_div (by omega), Nat.mod_eq_of_lt hdb, Nat.div_eq_of_lt hdb,
        Nat.add_zero, hq]

theorem foldl_base_eq_fromRev (base : Nat) (l : List Nat) :
    l.foldl (fun a d => a * base + d) 0 = fromRev base l.reverse := by
  rw [fromRev, List.foldr_reverse]

theorem countLeading_replicate_append (x k : Nat) (l : List Nat)
    (hl : l.head? ≠ some x) :
    countLeading x (List.replicate k x ++ l) = k := by
  induction k with
  | zero =>
    cases l with
    | nil => rfl
    | cons c t =>
      have : c ≠ x := by simpa using hl
      simp [countLeading, this]
  | succ k ih => simp [List.replicate_succ, countLeading, ih]

theorem decompose_leading (x : Nat) : ∀ bs : List Nat,
    bs = List.replicate (countLeading x bs) x ++ bs.drop (countLeading x bs)
    ∧ (bs.drop (countLeading x bs)).head? ≠ some x := by
  intro bs
  induction bs with
  | nil => exact ⟨rfl, by simp⟩
  | cons b bs ih =>
    rcases eq_or_ne b x with rfl | hbx
    · have hc : countLeading b (b :: bs) = countLeading b bs + 1 := by
        simp [countLeading]
      rw [hc]
      refine ⟨?_, ?_⟩
      · rw [List.replicate_succ, List.drop_succ_cons]
        exact congrArg (b :: ·) ih.1
      · rw [List.drop_succ_cons]
        exact ih.2
    · have hc : countLeading x (b :: bs) = 0 := by simp [countLeading, hbx]
      rw [hc]
      exact ⟨rfl, by simpa using hbx⟩

theorem natFromBytes_replicate_zero (k : Nat) (l : List Nat) :
    natFromBytes (List.replicate k 0 ++ l) = natFromBytes l := by
  induction k with
  | zero => rfl
  | succ k ih => simpa [natFromBytes, List.replicate_succ] using ih

theorem alphabet_roundtrip :
    ∀ d, d < 58 → indexInAlphabet (alphabet58.getD d 0) alphabet58 = d := by decide

theorem alphabet_ne_one :
    ∀ d, d < 58 → d ≠ 0 → alphabet58.getD d 0 ≠ 49 := by decide

theorem base58_roundtrip (bs : List Nat) (hbytes : ∀ b ∈ bs, b < 256) :
    base58decode (base58encode bs) = bs := by
  obtain ⟨hdecomp, hhead⟩ := decompose_leading 0 bs
  have hval : natFromBytes bs
      = natFromBytes (bs.drop (countLeading 0 bs)) := by
    conv_lhs => rw [hdecomp]
    exact natFromBytes_replicate_zero _ _
  have hdigs_lt : ∀ d ∈ (digitsRev 58 (natFromBytes bs)).reverse, d < 58 := by
    intro d hd
    exact digitsRev_lt 58 (by omega) _ d (List.mem_reverse.mp hd)
  have hchars_head :
      ((digitsRev 58 (natFromBytes bs)).reverse.map
        (fun d => alphabet58.getD d 0)).head? ≠ some 49 := by
    rw [List.head?_map]
    rcases eq_or_ne (natFromBytes bs) 0 with hz | hz
    · simp [hz, digitsRev, digitsCore]
    · have hlast := digitsRev_getLast_ne_zero 58 (by omega) _ hz
      rw [List.head?_reverse]
      cases hlg : (digitsRev 58 (natFromBytes bs)).getLast? with
      | none => simp
      | some d =>
        have hd0 : d ≠ 0 := by rw [hlg] at hlast; simpa using hlast
        have hd58 : d < 58 := by
          obtain ⟨hne, rfl⟩ :=
            List.mem_getLast?_eq_getLast (Option.mem_def.mpr hlg)
          exact digitsRev_lt 58 (by omega) _ _ (List.getLast_mem hne)
        simpa using alphabet_ne_one d hd58 hd0
  rw [base58encode, base58decode]
  rw [countLeading_replicate_append 49 _ _ hchars_head]
  rw [List.drop_left' (List.length_replicate _ _)]
  rw [List.map_map]
  have hmapid : (digitsRev 58 (natFromBytes bs)).reverse.map
      ((fun c => indexInAlphabet c alphabet58) ∘ (fun d => alphabet58.getD d 0))
      = (digitsRev 58 (natFromBytes bs)).reverse := by
    have hcongr : ∀ d ∈ (digitsRev 58 (natFromBytes bs)).reverse,
        ((fun c => indexInAlphabet c alphabet58) ∘ (fun d => alphabet58.getD d 0)) d
          = id d := fun d hd => alphabet_roundtrip d (hdigs_lt d hd)
    rw [List.map_congr_left hcongr, List.map_id]
  rw [hmapid, foldl_base_eq_fromRev, List.reverse_reverse,
    fromRev_digitsRev 58 (by omega)]
  have hfold : natFromBytes bs
      = fromRev 256 ((bs.drop (countLeading 0 bs)).reverse) := by
    rw [hval, natFromBytes, foldl_base_eq_fromRev]
  have hdig256 : digitsRev 256 (natFromBytes bs)
      = (bs.drop (countLeading 0 bs)).reverse := by
    rw [hfold]
    refine digitsRev_fromRev 256 (by omega) _ ?_ ?_
    · intro d hd
      exact hbytes d (List.drop_subset _ _ (List.mem_reverse.mp hd))
    · rw [List.getLast?_reverse]
      exact hhead
  rw [hdig256, List.reverse_reverse]
  exact hdecomp.symm

theorem varintCore_lt : ∀ fuel n : Nat, ∀ b ∈ varintCore fuel n, b < 256 := by
  intro fuel
  induction fuel with
  | zero =>
    intro n b hb
    simp only [varintCore, List.mem_singleton] at hb
    omega
  | succ fuel ih =>
    intro n b hb
    by_cases h : n < 128
    · simp only [varintCore, if_pos h, List.mem_singleton] at hb
      omega
    · simp only [varintCore, if_neg h, List.mem_cons] at hb
      rcases hb with rfl | hb
      · omega
      · exact ih _ b hb

theorem utf8Encode_lt : ∀ cs : List Nat, (∀ c ∈ cs, c < 1114112) →
    ∀ b ∈ utf8Encode cs, b < 256 := by
  intro cs
  induction cs with
  | nil => intro _ b hb; simp [utf8Encode] at hb
  | cons c cs ih =>
    intro hc b hb
    have hclt : c < 1114112 := hc c (by simp)
    rw [utf8Encode] at hb
    rcases List.mem_append.mp hb with hb | hb
    · split_ifs at hb <;> simp only [List.mem_cons, List.mem_singleton,
        List.not_mem_nil, or_false] at hb <;> rcases hb with rfl | rfl | rfl | rfl <;> omega
    · exact ih (fun x hx => hc x (List.mem_cons_of_mem _ hx)) b hb

theorem lenDelim_lt (tag : Nat) (htag : tag < 256) (payload : List Nat)
    (hp : ∀ b ∈ payload, b < 256) : ∀ b ∈ lenDelim tag payload, b < 256 := by
  intro b hb
  rw [lenDelim] at hb
  rcases List.mem_cons.mp hb with rfl | hb
  · exact htag
  · rcases List.mem_append.mp hb with hb | hb
    · exact varintCore_lt _ _ b hb
    · exact hp b hb

theorem writeToBytes_lt (m : GMessage) (h : GMessageValid m) :
    ∀ b ∈ writeToBytes (rpc_Message_from m), b < 256 := by
  obtain ⟨hsrc, hdata, hseq, htop⟩ := h
  intro b hb
  rw [writeToBytes] at hb
  rcases List.mem_append.mp hb with hb | hb
  · rcases List.mem_append.mp hb with hb | hb
    · rcases List.mem_append.mp hb with hb | hb
      · exact lenDelim_lt 10 (by omega) _ hsrc b hb
      · exact lenDelim_lt 18 (by omega) _ hdata b hb
    · exact lenDelim_lt 26 (by omega) _ hseq b hb
  · rcases List.mem_flatten.mp hb with ⟨l, hl, hbl⟩
    rcases List.mem_map.mp hl with ⟨tstr, htstr, rfl⟩
    rcases List.mem_map.mp htstr with ⟨t, ht, rfl⟩
    refine lenDelim_lt 34 (by omega) _ ?_ b hbl
    exact utf8Encode_lt _ (fun c hcmem => htop t ht c hcmem)

/-- Claim C7: two messages have the same built MsgHash exactly when their
serialized protobuf forms are byte-equal; the construction is a function
of the serialized bytes, hence deterministic. -/
theorem msg_hash_eq_iff_serialized_eq (m1 m2 : GMessage)
    (h1 : GMessageValid m1) (h2 : GMessageValid m2) :
    (MsgHashBuilder.new m1).build = (MsgHashBuilder.new m2).build
      ↔ writeToBytes (rpc_Message_from m1) = writeToBytes (rpc_Message_from m2) := by
  constructor
  · intro h
    have henc : base58encode (writeToBytes (rpc_Message_from m1))
        = base58encode (writeToBytes (rpc_Message_from m2)) := by
      simpa [MsgHashBuilder.build, MsgHashBuilder.new, MsgHash.mk.injEq] using h
    calc writeToBytes (rpc_Message_from m1)
        = base58decode (base58encode (writeToBytes (rpc_Message_from m1))) :=
          (base58_roundtrip _ (writeToBytes_lt m1 h1)).symm
      _ = base58decode (base58encode (writeToBytes (rpc_Message_from m2))) := by
          rw [henc]
      _ = writeToBytes (rpc_Message_from m2) :=
          base58_roundtrip _ (writeToBytes_lt m2 h2)
  · intro h
    simp [MsgHashBuilder.build, MsgHashBuilder.new, h]

/-- Witness for claim C7 at a concrete valid message. -/
theorem msg_hash_eq_iff_serialized_eq_witness :
    GMessageValid msgSmall ∧
      ((MsgHashBuilder.new msgSmall).build = (MsgHashBuilder.new msgSmall).build
        ↔ writeToBytes (rpc_Message_from msgSmall)
          = writeToBytes (rpc_Message_from msgSmall)) :=
  ⟨by decide, msg_hash_eq_iff_serialized_eq msgSmall msgSmall (by decide) (by decide)⟩

/-- Claim C9: the MsgHash of a message is an invertible base-58 rendering,
not a one-way digest: decoding the built hash string returns exactly the
serialized bytes of the message. -/
theorem msg_hash_base58_decodes_to_serialized (m : GMessage)
    (h : GMessageValid m) :
    base58decode ((MsgHashBuilder.new m).build).hash
      = writeToBytes (rpc_Message_from m) := by
  have hr := base58_roundtrip _ (writeToBytes_lt m h)
  simpa [MsgHashBuilder.build, MsgHashBuilder.new] using hr

/-- Witness for claim C9 at a concrete valid message. -/
theorem msg_hash_base58_decodes_to_serialized_witness :
    GMessageValid msgSmall ∧
      base58decode ((MsgHashBuilder.new msgSmall).build).hash
        = writeToBytes (rpc_Message_from msgSmall) :=
  ⟨by decide, msg_hash_base58_decodes_to_serialized msgSmall (by decide)⟩

/-- Claim C8: when seq_no is valid UTF-8, MsgId::new returns the id whose
string is the decoded seq_no followed by the base-58 source peer id. -/
theorem msg_id_new_concat (m : GMessage) (s : List Nat)
    (h : utf8Decode m.seq_no = some s) :
    MsgId.new m = some ⟨s ++ m.source.to_base58⟩ := by
  rw [MsgId.new, h]

/-- Witness for claim C8 at a concrete message with UTF-8 seq_no. -/
theorem msg_id_new_concat_witness :
    utf8Decode msgSmall.seq_no = some [104, 105]
      ∧ MsgId.new msgSmall = some ⟨[104, 105] ++ msgSmall.source.to_base58⟩ :=
  ⟨by decide, msg_id_new_concat msgSmall [104, 105] (by decide)⟩

/-- Claim C10: MsgId::new is partial: on a message whose seq_no is not
valid UTF-8 the expect call panics (modelled as none), and the call is
panic-free exactly when seq_no decodes as UTF-8. -/
theorem msg_id_new_partial_on_invalid_utf8 :
    MsgId.new msgBadSeq = none
      ∧ ∀ m : GMessage, MsgId.new m = none ↔ utf8Decode m.seq_no = none := by
  constructor
  · decide
  · intro m
    cases h : utf8Decode m.seq_no <;> simp [MsgId.new, h]
